import Mathlib

set_option maxRecDepth 4000

/-
Verification of the state-reactor repository.

The repository has two components:
  * ResourceManager (src/unnamed/part_000): a Map from resource keys to Sets
    of consumers, with bulk removal and cascading prune.
  * StateReactor (src/src/state-reactor.ts): the reactive scheduler built on
    top of it.

JS Maps are embedded as association lists (insertion order preserved, keys
unique in every state the code constructs); JS Sets as duplicate-free lists
(insertion order preserved).  Resource keys, consumer keys, effect identities
and state-cell identities are all function identities in the source; they are
embedded as natural numbers.
-/

/-- Lookup in an association list, modelling JS Map.prototype.get. -/
def alookup {α : Type} : List (Nat × α) → Nat → Option α
  | [], _ => none
  | p :: rest, k => if p.1 = k then some p.2 else alookup rest k

/-- Update-or-append in an association list, modelling JS Map.prototype.set:
an existing entry is updated in place, a new entry is appended. -/
def aset {α : Type} : List (Nat × α) → Nat → α → List (Nat × α)
  | [], k, v => [(k, v)]
  | p :: rest, k, v => if p.1 = k then (k, v) :: rest else p :: aset rest k v

/-- Entry removal, modelling JS Map.prototype.delete (keys are unique in every
map the code builds, so removing every entry with the key is equivalent). -/
def aremove {α : Type} : List (Nat × α) → Nat → List (Nat × α)
  | [], _ => []
  | p :: rest, k => if p.1 = k then aremove rest k else p :: aremove rest k

/-- JS Set.prototype.add on a duplicate-free list. -/
def setAdd (s : List Nat) (x : Nat) : List Nat :=
  if x ∈ s then s else s ++ [x]

namespace ResourceManager

/-- ResourceManager.associate (src/unnamed/part_000, lines 14-22): add the
consumer to the resource's set, creating the entry if absent. -/
def associate (m : List (Nat × List Nat)) (res con : Nat) : List (Nat × List Nat) :=
  match alookup m res with
  | some cs => aset m res (setAdd cs con)
  | none => m ++ [(res, [con])]

/-- The loop of ResourceManager.removeAssociations (lines 40-51): from every
remaining entry delete every consumer in cs, and drop the entry when its
consumer set becomes empty. -/
def pruneConsumers : List (Nat × List Nat) → List Nat → List (Nat × List Nat)
  | [], _ => []
  | p :: rest, cs =>
      if p.2.filter (fun c => ¬ c ∈ cs) = [] then pruneConsumers rest cs
      else (p.1, p.2.filter (fun c => ¬ c ∈ cs)) :: pruneConsumers rest cs

/-- ResourceManager.removeAssociations (lines 34-55): if the resource is
tracked, delete its entry, prune its consumers from every other entry, and
return the detached consumer set; otherwise return the map unchanged and an
absent result. -/
def removeAssociations (m : List (Nat × List Nat)) (res : Nat) :
    List (Nat × List Nat) × Option (List Nat) :=
  match alookup m res with
  | some cs => (pruneConsumers (aremove m res) cs, some cs)
  | none => (m, none)

/-- ResourceManager.removeAllAssociations (lines 60-62). -/
def removeAllAssociations (_m : List (Nat × List Nat)) : List (Nat × List Nat) := []

end ResourceManager

/-- The consumer set currently recorded for a resource (empty when the
resource is not tracked). -/
def consumersOf (m : List (Nat × List Nat)) (res : Nat) : List Nat :=
  (alookup m res).getD []

/-- A resource is tracked when the map has an entry for it. -/
def tracked (m : List (Nat × List Nat)) (res : Nat) : Prop :=
  (alookup m res).isSome = true

instance (m : List (Nat × List Nat)) (res : Nat) : Decidable (tracked m res) := by
  unfold tracked; infer_instance

/-- One public ResourceManager operation. -/
inductive RMOp
  | assoc (res con : Nat)
  | remove (res : Nat)
  | removeAll

/-- Apply one ResourceManager operation to the map. -/
def applyRMOp (m : List (Nat × List Nat)) : RMOp → List (Nat × List Nat)
  | .assoc res con => ResourceManager.associate m res con
  | .remove res => (ResourceManager.removeAssociations m res).1
  | .removeAll => ResourceManager.removeAllAssociations m

/-- Apply a sequence of ResourceManager operations, starting from the given
map. -/
def applyRMOps (m : List (Nat × List Nat)) (ops : List RMOp) : List (Nat × List Nat) :=
  ops.foldl applyRMOp m

/-- No tracked resource has an empty consumer set. -/
def NoEmptySets (m : List (Nat × List Nat)) : Prop :=
  ∀ p ∈ m, p.2 ≠ []


/-
StateReactor (src/src/state-reactor.ts).

Effects and cleanups are user callbacks; the reactor only ever calls them and
observes which reactor operations they perform.  They are embedded as behaviour
descriptions: an environment maps an effect identity and the number of its
previous invocations to the actions of that invocation (getter calls, an
optional reentrant stop() call, whether the body throws, and the optionally
returned cleanup).  A cleanup is described the same way (setter calls, an
optional reentrant stop() call, whether it throws).

The microtask queue is explicit: queueMicrotask appends the pending
executeEffect closure (identified by its effect), and a drain step pops and
runs closures until the queue is empty or fuel runs out.

The log is ghost instrumentation recording the externally visible happenings
(effect invocations, values observed by getter calls inside a body, cleanup
invocations, error-callback invocations, listener notifications); it never
influences control flow.  readSinceStop is likewise ghost: it accumulates, per
effect, the cells read with tracking since the last stop.
-/

/-- A cleanup callback's behaviour: the setter calls it makes, whether it then
calls stop() reentrantly, and whether it throws. -/
structure CleanupSpec where
  sets : List (Nat × Nat)
  callStop : Bool
  throws : Bool
deriving DecidableEq

/-- One invocation of an effect body: the getter calls it makes (cell and the
untracked flag), whether it calls stop() reentrantly, whether it throws, and
the cleanup it returns (none when it throws or returns nothing). -/
structure EffectRun where
  reads : List (Nat × Bool)
  callStop : Bool
  throws : Bool
  ret : Option CleanupSpec
deriving DecidableEq

/-- Ghost log events. -/
inductive Event
  | run (e : Nat)
  | readv (c v : Nat)
  | cleanupRun (e : Nat)
  | errorCb
  | notify (c i : Nat)
deriving DecidableEq

/-- The state of one StateReactor instance together with its state cells, its
pending microtasks and the ghost instrumentation. -/
structure Reactor where
  started : Bool
  effects : List Nat
  cleanups : List (Nat × CleanupSpec)
  rm : List (Nat × List Nat)
  executing : Option Nat
  queue : List Nat
  cells : List (Nat × Nat)
  listeners : List (Nat × Nat)
  runCounts : List (Nat × Nat)
  cbThrows : Bool
  log : List Event
  readSinceStop : List (Nat × List Nat)
deriving DecidableEq

namespace StateReactor

/-- The error callback invocation: it observably runs (one errorCb event) and
then either returns or throws, according to cbThrows. -/
def errorCallbackRun (r : Reactor) : Reactor × Bool :=
  ({ r with log := r.log ++ [Event.errorCb] }, r.cbThrows)

/-- StateReactor.#handleError (lines 59-63): invoke the error callback inside
try/catch, discarding any error it throws. -/
def handleError (r : Reactor) : Reactor :=
  (errorCallbackRun r).1

/-- StateReactor.#queueEffect (lines 208-212): when started, queueMicrotask a
closure that will execute the effect. -/
def queueEffect (r : Reactor) (e : Nat) : Reactor :=
  if r.started then { r with queue := r.queue ++ [e] } else r

/-- The current value of a state cell. -/
def cellVal (r : Reactor) (c : Nat) : Nat :=
  (alookup r.cells c).getD 0

/-- The listener notification loop at the end of the setter (lines 164-170):
every registered listener of the cell is invoked; the model records one notify
event per listener. -/
def notifyListeners (r : Reactor) (c : Nat) : Reactor :=
  { r with log := r.log ++
      (List.range ((alookup r.listeners c).getD 0)).map (fun i => Event.notify c i) }

/-- The setter closure from useState (lines 146-172).  Returns the new state
and whether the call threw the invalid-operation error.  On a value change it
stores the value, asks the ResourceManager for the effects associated with
this setter (clearing them), queues each, and notifies the listeners. -/
def setterImpl (r : Reactor) (c v : Nat) : Reactor × Bool :=
  if r.executing.isSome then (r, true)
  else
    match alookup r.cells c with
    | none => (r, false)
    | some cur =>
        if cur = v then (r, false)
        else
          let r1 := { r with cells := aset r.cells c v }
          let pr := ResourceManager.removeAssociations r1.rm c
          let r2 := { r1 with rm := pr.1 }
          let r3 := match pr.2 with
            | some effs => effs.foldl queueEffect r2
            | none => r2
          (notifyListeners r3 c, false)

/-- The getter closure from useState (lines 174-180): when an effect is
executing and tracking is not suppressed, associate this setter with the
executing effect; always return the current value.  The ghost readSinceStop
map records the same tracked read. -/
def getterImpl (r : Reactor) (c : Nat) (untracked : Bool) : Reactor × Nat :=
  let r1 := match r.executing with
    | some e =>
        if untracked then r
        else { r with rm := ResourceManager.associate r.rm c e,
                      readSinceStop := ResourceManager.associate r.readSinceStop e c }
    | none => r
  (r1, cellVal r c)

/-- The setter calls a cleanup body makes, in order; an invalid-operation
error thrown by a setter aborts the remaining calls (the body does not catch
it). -/
def runSets : Reactor → List (Nat × Nat) → Reactor × Bool
  | r, [] => (r, false)
  | r, (c, v) :: rest =>
      let p := setterImpl r c v
      if p.2 then (p.1, true) else runSets p.1 rest

/-- One cleanup invocation wrapped in try/catch (as at both call sites, lines
96-100 and 221-225): the cleanup runs its setter calls, optionally calls
stop() reentrantly, and optionally throws; any error is routed to
handleError. -/
def runCleanup (stopFn : Reactor → Reactor) (r : Reactor) (e : Nat)
    (cl : CleanupSpec) : Reactor :=
  let r1 := { r with log := r.log ++ [Event.cleanupRun e] }
  let p := runSets r1 cl.sets
  if p.2 then handleError p.1
  else
    let r2 := if cl.callStop then stopFn p.1 else p.1
    if cl.throws then handleError r2 else r2

/-- StateReactor.stop (lines 91-106), with fuel bounding the reentrant stop()
calls made by cleanups: when started, clear the started flag first, invoke
every pending cleanup (each in try/catch), then clear the cleanup table and
all associations (and the ghost read map).  A reentrant stop() always finds
started already false, so any fuel at least 2 gives the exact behaviour
(stopAux_fuel below). -/
def stopAux : Nat → Reactor → Reactor
  | 0, r => r
  | n + 1, r =>
      if r.started then
        let r1 := { r with started := false }
        let r2 := r.cleanups.foldl (fun acc p => runCleanup (stopAux n) acc p.1 p.2) r1
        { r2 with cleanups := [],
                  rm := ResourceManager.removeAllAssociations r2.rm,
                  readSinceStop := [] }
      else r

/-- StateReactor.stop. -/
def stop (r : Reactor) : Reactor := stopAux 2 r

/-- The getter calls an effect body makes, in order; the value each read
observes is recorded in the log. -/
def runReads : Reactor → List (Nat × Bool) → Reactor
  | r, [] => r
  | r, (c, unt) :: rest =>
      let p := getterImpl r c unt
      runReads { p.1 with log := p.1.log ++ [Event.readv c p.2] } rest

/-- StateReactor.#executeEffect (lines 214-242): skipped when not started;
otherwise run and remove the pending cleanup if any (errors routed to
handleError), mark the effect as executing, invoke the body (errors routed to
handleError; a throwing body stores no cleanup), store the returned cleanup if
any, and unconditionally clear the executing marker. -/
def executeEffect (env : Nat → Nat → EffectRun) (r : Reactor) (e : Nat) : Reactor :=
  if r.started then
    let r1 := match alookup r.cleanups e with
      | some cl => runCleanup stop { r with cleanups := aremove r.cleanups e } e cl
      | none => r
    let r2 := { r1 with executing := some e }
    let n := (alookup r2.runCounts e).getD 0
    let r3 := { r2 with runCounts := aset r2.runCounts e (n + 1),
                        log := r2.log ++ [Event.run e] }
    let spec := env e n
    let r4 := runReads r3 spec.reads
    let r5 := if spec.callStop then stop r4 else r4
    let r6 :=
      if spec.throws then handleError r5
      else match spec.ret with
        | some cl => { r5 with cleanups := aset r5.cleanups e cl }
        | none => r5
    { r6 with executing := none }
  else r

/-- Drain the microtask queue: pop and run pending executeEffect closures
until the queue is empty or fuel runs out (a cleanup's setter calls may queue
new closures mid-drain). -/
def drain (env : Nat → Nat → EffectRun) : Nat → Reactor → Reactor
  | 0, r => r
  | fuel + 1, r =>
      match r.queue with
      | [] => r
      | e :: rest => drain env fuel (executeEffect env { r with queue := rest } e)

/-- StateReactor.start (lines 74-82): when not started, set the flag and queue
every registered effect. -/
def start (r : Reactor) : Reactor :=
  if r.started then r
  else
    let r1 := { r with started := true }
    r1.effects.foldl queueEffect r1

/-- StateReactor.useEffect (lines 122-127): no-op when the effect is already
registered; otherwise register and queue it. -/
def useEffect (r : Reactor) (e : Nat) : Reactor :=
  if e ∈ r.effects then r
  else queueEffect { r with effects := r.effects ++ [e] } e

/-- StateReactor.useState (lines 141-187): create a fresh cell with the
initial value (a repeated id is a no-op so that cell identities stay unique,
mirroring the freshness of each closure pair in the source). -/
def useState (r : Reactor) (c v : Nat) : Reactor :=
  if (alookup r.cells c).isSome then r
  else { r with cells := r.cells ++ [(c, v)] }

/-- The observer closure from useState (lines 182-184): register one more
listener for the cell. -/
def observe (r : Reactor) (c : Nat) : Reactor :=
  { r with listeners := aset r.listeners c ((alookup r.listeners c).getD 0 + 1) }

end StateReactor

/-- A top-level interaction with the reactor (all issued from plain caller
code, so executing is none at each step). -/
inductive Cmd
  | start
  | stop
  | useEffect (e : Nat)
  | useState (c v : Nat)
  | observe (c : Nat)
  | set (c v : Nat)
  | drain (fuel : Nat)

/-- Apply one top-level interaction. -/
def applyCmd (env : Nat → Nat → EffectRun) (r : Reactor) : Cmd → Reactor
  | .start => StateReactor.start r
  | .stop => StateReactor.stop r
  | .useEffect e => StateReactor.useEffect r e
  | .useState c v => StateReactor.useState r c v
  | .observe c => StateReactor.observe r c
  | .set c v => (StateReactor.setterImpl r c v).1
  | .drain fuel => StateReactor.drain env fuel r

/-- Run a list of top-level interactions. -/
def runCmds (env : Nat → Nat → EffectRun) (cmds : List Cmd) (r : Reactor) : Reactor :=
  cmds.foldl (applyCmd env) r

/-- A freshly constructed reactor (constructor, lines 55-57): not started,
nothing registered. -/
def Reactor.init : Reactor :=
  { started := false, effects := [], cleanups := [], rm := [], executing := none,
    queue := [], cells := [], listeners := [], runCounts := [], cbThrows := false,
    log := [], readSinceStop := [] }

/-- Keep only cleanup-invocation events. -/
def isCleanupEvent : Event → Bool
  | .cleanupRun _ => true
  | _ => false

def cleanupEvents (l : List Event) : List Event := l.filter isCleanupEvent

/-- Keep only effect-body-invocation events. -/
def isRunEvent : Event → Bool
  | .run _ => true
  | _ => false

def runEvents (l : List Event) : List Event := l.filter isRunEvent

/-- Keep effect-body and cleanup invocations (the execution order trace). -/
def isExecEvent : Event → Bool
  | .run _ => true
  | .cleanupRun _ => true
  | _ => false

def execEvents (l : List Event) : List Event := l.filter isExecEvent

/-- An environment whose single effect 0 reads cell 0 with tracking on every
run and never returns a cleanup. -/
def envTrack0 : Nat → Nat → EffectRun := fun _ _ =>
  { reads := [(0, false)], callStop := false, throws := false, ret := none }

/-- The C1 counterexample state: effect 0 runs once reading cell 0 tracked,
then cell 0 is written (value 0 to 1) with no drain yet. -/
def rC1 : Reactor :=
  runCmds envTrack0 [.useState 0 0, .useEffect 0, .start, .drain 2, .set 0 1]
    Reactor.init

/-- An environment whose effect 0 reads cell 0 tracked on its first run only
(the conditional-read scenario). -/
def envCond : Nat → Nat → EffectRun := fun _ n =>
  if n = 0 then { reads := [(0, false)], callStop := false, throws := false, ret := none }
  else { reads := [], callStop := false, throws := false, ret := none }

/-- The conditional-read scenario run to the end: initial run reads cell 0;
cell 0 changes (effect re-runs without reading); cell 0 changes again. -/
def rCond : Reactor :=
  runCmds envCond
    [.useState 0 0, .useEffect 0, .start, .drain 2, .set 0 1, .drain 2,
     .set 0 2, .drain 2]
    Reactor.init

/-- Effect 0 reads cell 0 tracked and returns a cleanup that calls the setter
of cell 1 (value 5); later runs read nothing. -/
def envC5 : Nat → Nat → EffectRun := fun _ n =>
  if n = 0 then { reads := [(0, false)], callStop := false, throws := false,
                  ret := some { sets := [(1, 5)], callStop := false, throws := false } }
  else { reads := [], callStop := false, throws := false, ret := none }

/-- The C5 counterexample state: effect 0 runs and registers its cleanup;
cell 0 changes; the drain re-executes effect 0, first invoking the pending
cleanup, whose setter call on cell 1 goes through. -/
def rC5 : Reactor :=
  runCmds envC5
    [.useState 0 0, .useState 1 0, .useEffect 0, .start, .drain 2, .set 0 1, .drain 2]
    Reactor.init

/-- An environment with one trivial effect (no reads, no cleanup). -/
def envTrivial : Nat → Nat → EffectRun := fun _ _ =>
  { reads := [], callStop := false, throws := false, ret := none }

/-- The C4 counterexample state: effect 0 is queued, the reactor is stopped
and immediately restarted before the microtask queue drains, then the queue
drains. -/
def rC4 : Reactor :=
  runCmds envTrivial [.start, .useEffect 0, .stop, .start, .drain 3] Reactor.init

/-- Effect 0's first run calls stop() and then returns a cleanup with the
given behaviour; later runs do nothing. -/
def envC10 (cb th : Bool) : Nat → Nat → EffectRun := fun _ n =>
  if n = 0 then { reads := [], callStop := true, throws := false,
                  ret := some { sets := [], callStop := cb, throws := th } }
  else { reads := [], callStop := false, throws := false, ret := none }

/-- The C10 state: the reactor is started, effect 0 runs once (stopping the
reactor from inside its own body and returning a cleanup). -/
def rC10 (cb th : Bool) : Reactor :=
  runCmds (envC10 cb th) [.start, .useEffect 0, .drain 2] Reactor.init

/-- Effect 0 returns a throwing cleanup, effect 1 always throws, effect 2
returns a well-behaved cleanup. -/
def envC8 : Nat → Nat → EffectRun := fun e _ =>
  if e = 0 then { reads := [], callStop := false, throws := false,
                  ret := some { sets := [], callStop := false, throws := true } }
  else if e = 1 then { reads := [], callStop := false, throws := true, ret := none }
  else { reads := [], callStop := false, throws := false,
         ret := some { sets := [], callStop := false, throws := false } }

/-- The C8 command list: register the three effects, drain, stop. -/
def cmdsC8 : List Cmd := [.start, .useEffect 0, .useEffect 1, .useEffect 2, .drain 3, .stop]

/-- A concrete running reactor used by witnesses. -/
def rWitness : Reactor :=
  { Reactor.init with started := true, cells := [(0, 5), (1, 7)] }

/-- rWitness while effect 3 is executing. -/
def rWitnessExec : Reactor :=
  { rWitness with executing := some 3 }

/-- Effect 0 reads cells 0 and 1 with tracking on every run. -/
def envTrack01 : Nat → Nat → EffectRun := fun _ _ =>
  { reads := [(0, false), (1, false)], callStop := false, throws := false, ret := none }

/-- The C3 base state: cells 0 and 1 (both 0), effect 0 registered and run
once, so it is associated with both cells and the queue is empty. -/
def S0 : Reactor :=
  runCmds envTrack01 [.useState 0 0, .useState 1 0, .useEffect 0, .start, .drain 2]
    Reactor.init

/-- The shape of the reactor during the write window of the C3 scenario:
running, quiescent, effect 0 queued exactly once, all of its associations
already cleared, cells 0 and 1 present. -/
def WriteInv (r : Reactor) : Prop :=
  r.started = true ∧ r.executing = none ∧ r.rm = [] ∧ r.queue = [0]
  ∧ r.cleanups = [] ∧ ∃ x y, r.cells = [(0, x), (1, y)]

/-- Keys of an association list are duplicate-free (true of every JS Map). -/
def KeysNodup {α : Type} (m : List (Nat × α)) : Prop := (m.map Prod.fst).Nodup

/-- Every recorded association points back to a tracked read performed since
the last stop: the soundness half of the dependency invariant. -/
def DepsSound (r : Reactor) : Prop :=
  ∀ c e, e ∈ consumersOf r.rm c → c ∈ consumersOf r.readSinceStop e

/-- A started reactor with two pending cleanups: one that reentrantly calls
stop(), one that throws. -/
def rSweep : Reactor :=
  { Reactor.init with
      started := true,
      cleanups := [(4, { sets := [], callStop := true, throws := false }),
                   (9, { sets := [], callStop := false, throws := true })] }

/-- The reactor's well-formedness used for the dependency-soundness
invariant: unique keys in the association index, and every association backed
by a tracked read since the last stop. -/
def ReactorInv (r : Reactor) : Prop := KeysNodup r.rm ∧ DepsSound r

theorem mem_of_alookup {α : Type} {m : List (Nat × α)} {k : Nat} {v : α}
    (h : alookup m k = some v) : (k, v) ∈ m := by
  induction m with
  | nil => simp [alookup] at h
  | cons p rest ih =>
      rw [alookup] at h
      by_cases e : p.1 = k
      · rw [if_pos e] at h
        injection h with h
        cases p
        simp only at e h
        subst e; subst h
        exact List.mem_cons_self _ _
      · rw [if_neg e] at h
        exact List.mem_cons_of_mem p (ih h)

theorem alookup_eq_none_of_not_mem {α : Type} {m : List (Nat × α)} {k : Nat}
    (h : ¬ k ∈ m.map Prod.fst) : alookup m k = none := by
  induction m with
  | nil => rfl
  | cons p rest ih =>
      simp only [List.map_cons, List.mem_cons, not_or] at h
      rw [alookup, if_neg (fun e => h.1 e.symm)]
      exact ih h.2

theorem mem_map_fst_of_alookup {α : Type} {m : List (Nat × α)} {k : Nat} {v : α}
    (h : alookup m k = some v) : k ∈ m.map Prod.fst :=
  List.mem_map.mpr ⟨(k, v), mem_of_alookup h, rfl⟩

theorem alookup_aremove_self {α : Type} (m : List (Nat × α)) (k : Nat) :
    alookup (aremove m k) k = none := by
  induction m with
  | nil => rfl
  | cons p rest ih =>
      rw [aremove]
      by_cases e : p.1 = k
      · rw [if_pos e]; exact ih
      · rw [if_neg e, alookup, if_neg e]; exact ih

theorem alookup_aremove_ne {α : Type} (m : List (Nat × α)) (k k2 : Nat)
    (h : k2 ≠ k) : alookup (aremove m k) k2 = alookup m k2 := by
  induction m with
  | nil => rfl
  | cons p rest ih =>
      rw [aremove]
      by_cases e : p.1 = k
      · have e2 : p.1 ≠ k2 := by rw [e]; exact fun q => h q.symm
        rw [if_pos e, alookup, if_neg e2]
        exact ih
      · rw [if_neg e, alookup, alookup]
        by_cases e2 : p.1 = k2
        · rw [if_pos e2, if_pos e2]
        · rw [if_neg e2, if_neg e2]; exact ih

theorem keys_aremove_sub {α : Type} (m : List (Nat × α)) (k k2 : Nat)
    (h : k2 ∈ (aremove m k).map Prod.fst) : k2 ∈ m.map Prod.fst := by
  induction m with
  | nil => simp [aremove] at h
  | cons p rest ih =>
      rw [aremove] at h
      by_cases e : p.1 = k
      · rw [if_pos e] at h
        exact List.mem_cons_of_mem _ (ih h)
      · rw [if_neg e] at h
        rcases List.mem_cons.mp h with h1 | h1
        · exact List.mem_cons.mpr (Or.inl h1)
        · exact List.mem_cons_of_mem _ (ih h1)

theorem keys_nodup_aremove {α : Type} {m : List (Nat × α)} (k : Nat)
    (h : (m.map Prod.fst).Nodup) : ((aremove m k).map Prod.fst).Nodup := by
  induction m with
  | nil => exact List.nodup_nil
  | cons p rest ih =>
      simp only [List.map_cons, List.nodup_cons] at h
      rw [aremove]
      by_cases e : p.1 = k
      · rw [if_pos e]; exact ih h.2
      · rw [if_neg e]
        simp only [List.map_cons, List.nodup_cons]
        exact ⟨fun hm => h.1 (keys_aremove_sub rest k p.1 hm), ih h.2⟩

/-- alookup through pruneConsumers, assuming unique keys: the entry survives
exactly when some consumer outside cs remains, and then holds the filtered
set. -/
theorem alookup_pruneConsumers {m : List (Nat × List Nat)} {cs : List Nat}
    (hnd : (m.map Prod.fst).Nodup) (k : Nat) :
    alookup (ResourceManager.pruneConsumers m cs) k =
      match alookup m k with
      | none => none
      | some l =>
          if l.filter (fun c => ¬ c ∈ cs) = [] then none
          else some (l.filter (fun c => ¬ c ∈ cs)) := by
  induction m with
  | nil => rfl
  | cons p rest ih =>
      simp only [List.map_cons, List.nodup_cons] at hnd
      rw [ResourceManager.pruneConsumers, alookup]
      by_cases e : p.1 = k
      · rw [if_pos e]
        by_cases hf : p.2.filter (fun c => ¬ c ∈ cs) = []
        · rw [if_pos hf]
          simp only [hf, if_pos rfl]
          apply alookup_eq_none_of_not_mem
          intro hmem
          apply hnd.1
          rw [← e] at hmem
          clear e ih hnd hf
          induction rest with
          | nil => simp [ResourceManager.pruneConsumers] at hmem
          | cons q qrest ihq =>
              rw [ResourceManager.pruneConsumers] at hmem
              by_cases hq : q.2.filter (fun c => ¬ c ∈ cs) = []
              · rw [if_pos hq] at hmem
                exact List.mem_cons_of_mem _ (ihq hmem)
              · rw [if_neg hq] at hmem
                rcases List.mem_cons.mp hmem with h1 | h1
                · exact List.mem_cons.mpr (Or.inl h1)
                · exact List.mem_cons_of_mem _ (ihq h1)
        · rw [if_neg hf, alookup, if_pos e]
          simp only [if_neg hf]
      · by_cases hf : p.2.filter (fun c => ¬ c ∈ cs) = []
        · rw [if_pos hf, if_neg e]
          exact ih hnd.2
        · rw [if_neg hf, alookup, if_neg e, if_neg e]
          exact ih hnd.2

/-- C2: removeAssociations on a tracked resource detaches it, returns its
consumer set, removes those consumers from every other tracked resource, and
drops every other resource whose consumer set becomes empty; on an untracked
resource it returns an absent result and changes nothing.  Stated through
membership: (1) the returned value is the resource's recorded set; (2) if the
resource is untracked the map is unchanged; (3) the resource is untracked
afterwards; (4) a consumer is recorded for another resource afterwards iff it
was recorded before and is not in the detached set; (5) another resource
remains tracked iff it had a consumer outside the detached set. -/
theorem removeAssociations_spec (m : List (Nat × List Nat)) (res : Nat)
    (hnd : (m.map Prod.fst).Nodup) (hwf : ∀ p ∈ m, p.2 ≠ []) :
    (ResourceManager.removeAssociations m res).2 = alookup m res
    ∧ (alookup m res = none → (ResourceManager.removeAssociations m res).1 = m)
    ∧ alookup (ResourceManager.removeAssociations m res).1 res = none
    ∧ (∀ res2, res2 ≠ res → ∀ c,
        (c ∈ consumersOf (ResourceManager.removeAssociations m res).1 res2 ↔
          c ∈ consumersOf m res2 ∧ ¬ c ∈ consumersOf m res))
    ∧ (∀ res2, res2 ≠ res →
        (tracked (ResourceManager.removeAssociations m res).1 res2 ↔
          ∃ c, c ∈ consumersOf m res2 ∧ ¬ c ∈ consumersOf m res)) := by
  unfold ResourceManager.removeAssociations
  cases hres : alookup m res with
  | none =>
      refine ⟨rfl, fun _ => rfl, hres, ?_, ?_⟩
      · intro res2 _ c
        simp [consumersOf, hres]
      · intro res2 _
        unfold tracked consumersOf
        simp only [hres, Option.getD_none, List.not_mem_nil, not_false_iff, and_true]
        cases h2 : alookup m res2 with
        | none => simp
        | some l =>
            simp only [Option.isSome_some, Option.getD_some, true_iff]
            exact List.exists_mem_of_ne_nil l (hwf _ (mem_of_alookup h2))
  | some cs =>
      have hnd2 : ((aremove m res).map Prod.fst).Nodup := keys_nodup_aremove res hnd
      refine ⟨rfl, by simp, ?_, ?_, ?_⟩
      · rw [alookup_pruneConsumers hnd2, alookup_aremove_self]
      · intro res2 hne c
        rw [consumersOf, alookup_pruneConsumers hnd2, alookup_aremove_ne m res res2 hne]
        simp only [consumersOf, hres, Option.getD_some]
        cases h2 : alookup m res2 with
        | none => simp
        | some l =>
            by_cases hf : l.filter (fun c => ¬ c ∈ cs) = []
            · simp only [hf, if_pos rfl, Option.getD_none]
              constructor
              · intro h; exact absurd h (List.not_mem_nil c)
              · intro hc
                have : c ∈ l.filter (fun c => ¬ c ∈ cs) :=
                  List.mem_filter.mpr ⟨hc.1, by simpa using hc.2⟩
                rw [hf] at this
                exact absurd this (List.not_mem_nil c)
            · simp only [if_neg hf, Option.getD_some]
              constructor
              · intro h
                have := List.mem_filter.mp h
                exact ⟨this.1, by simpa using this.2⟩
              · intro hc
                exact List.mem_filter.mpr ⟨hc.1, by simpa using hc.2⟩
      · intro res2 hne
        unfold tracked
        rw [alookup_pruneConsumers hnd2, alookup_aremove_ne m res res2 hne]
        simp only [consumersOf, hres, Option.getD_some]
        cases h2 : alookup m res2 with
        | none => simp
        | some l =>
            by_cases hf : l.filter (fun c => ¬ c ∈ cs) = []
            · simp only [hf, if_pos rfl, Option.getD_some, Option.isSome_none]
              constructor
              · intro h; exact absurd h (by decide)
              · intro hc
                rcases hc with ⟨c, hc1, hc2⟩
                have : c ∈ l.filter (fun c => ¬ c ∈ cs) :=
                  List.mem_filter.mpr ⟨hc1, by simpa using hc2⟩
                rw [hf] at this
                exact absurd this (List.not_mem_nil c)
            · simp only [if_neg hf, Option.isSome_some, Option.getD_some, true_iff]
              rcases List.exists_mem_of_ne_nil _ hf with ⟨c, hc⟩
              have := List.mem_filter.mp hc
              exact ⟨c, this.1, by simpa using this.2⟩

/-- C2 witness: the theorem applied at the concrete map
[(1, [10, 20]), (2, [10]), (3, [30])] and resource 1. -/
theorem removeAssociations_spec_witness :
    (([(1, [10, 20]), (2, [10]), (3, [30])] : List (Nat × List Nat)).map Prod.fst).Nodup
    ∧ (∀ p ∈ ([(1, [10, 20]), (2, [10]), (3, [30])] : List (Nat × List Nat)), p.2 ≠ [])
    ∧ (ResourceManager.removeAssociations [(1, [10, 20]), (2, [10]), (3, [30])] 1).2 =
        alookup [(1, [10, 20]), (2, [10]), (3, [30])] 1 := by
  refine ⟨by decide, by decide, ?_⟩
  exact (removeAssociations_spec [(1, [10, 20]), (2, [10]), (3, [30])] 1
    (by decide) (by decide)).1

theorem setAdd_ne_nil (s : List Nat) (x : Nat) : setAdd s x ≠ [] := by
  unfold setAdd
  by_cases h : x ∈ s
  · rw [if_pos h]
    intro he
    rw [he] at h
    exact absurd h (List.not_mem_nil x)
  · rw [if_neg h]
    intro he
    exact absurd (List.append_eq_nil.mp he).2 (by simp)

theorem mem_aset {α : Type} {m : List (Nat × α)} {k : Nat} {v : α} {p : Nat × α}
    (h : p ∈ aset m k v) : p ∈ m ∨ p = (k, v) := by
  induction m with
  | nil => simpa [aset] using h
  | cons q rest ih =>
      rw [aset] at h
      by_cases e : q.1 = k
      · rw [if_pos e] at h
        rcases List.mem_cons.mp h with h1 | h1
        · exact Or.inr h1
        · exact Or.inl (List.mem_cons_of_mem q h1)
      · rw [if_neg e] at h
        rcases List.mem_cons.mp h with h1 | h1
        · exact Or.inl (List.mem_cons.mpr (Or.inl h1))
        · rcases ih h1 with h2 | h2
          · exact Or.inl (List.mem_cons_of_mem q h2)
          · exact Or.inr h2

theorem noEmptySets_associate {m : List (Nat × List Nat)} (res con : Nat)
    (h : NoEmptySets m) : NoEmptySets (ResourceManager.associate m res con) := by
  unfold ResourceManager.associate
  cases hres : alookup m res with
  | some cs =>
      intro p hp
      rcases mem_aset hp with h1 | h1
      · exact h p h1
      · rw [h1]
        exact setAdd_ne_nil cs con
  | none =>
      intro p hp
      rcases List.mem_append.mp hp with h1 | h1
      · exact h p h1
      · rcases List.mem_singleton.mp h1 with rfl
        simp

theorem noEmptySets_pruneConsumers (m : List (Nat × List Nat)) (cs : List Nat) :
    NoEmptySets (ResourceManager.pruneConsumers m cs) := by
  induction m with
  | nil => intro p hp; simp [ResourceManager.pruneConsumers] at hp
  | cons q rest ih =>
      intro p hp
      rw [ResourceManager.pruneConsumers] at hp
      by_cases hf : q.2.filter (fun c => ¬ c ∈ cs) = []
      · rw [if_pos hf] at hp
        exact ih p hp
      · rw [if_neg hf] at hp
        rcases List.mem_cons.mp hp with h1 | h1
        · rw [h1]; exact hf
        · exact ih p h1

theorem noEmptySets_removeAssociations {m : List (Nat × List Nat)} (res : Nat)
    (h : NoEmptySets m) :
    NoEmptySets (ResourceManager.removeAssociations m res).1 := by
  unfold ResourceManager.removeAssociations
  cases hres : alookup m res with
  | some cs => exact noEmptySets_pruneConsumers _ cs
  | none => exact h

/-- C9: in every ResourceManager state reachable by a sequence of associate,
removeAssociations and removeAllAssociations calls from the empty map, no
tracked resource has an empty consumer set. -/
theorem reachable_noEmptySets (ops : List RMOp) : NoEmptySets (applyRMOps [] ops) := by
  have step : ∀ (m : List (Nat × List Nat)), NoEmptySets m →
      ∀ (rest : List RMOp), NoEmptySets (applyRMOps m rest) := by
    intro m hm rest
    induction rest generalizing m with
    | nil => exact hm
    | cons op rest2 ih =>
        show NoEmptySets (applyRMOps (applyRMOp m op) rest2)
        apply ih
        cases op with
        | assoc res con => exact noEmptySets_associate res con hm
        | remove res => exact noEmptySets_removeAssociations res hm
        | removeAll =>
            intro p hp
            exact absurd hp (List.not_mem_nil p)
  exact step [] (fun p hp => absurd hp (List.not_mem_nil p)) ops

/-- C7: calling a setter (from plain caller code, so no effect is executing)
with a value identical to the current value is a complete no-op: the cell
keeps its value, no effect is queued, no listener is notified, nothing is
logged, and the call does not throw.  The comparison is the identity
comparison of the source (value equality of the embedded values). -/
theorem setter_identical_value_noop (r : Reactor) (c v : Nat)
    (hex : r.executing = none) (hv : alookup r.cells c = some v) :
    StateReactor.setterImpl r c v = (r, false) := by
  unfold StateReactor.setterImpl
  rw [hex, hv]
  simp

/-- C7 witness: the theorem applied at rWitness, cell 0, value 5. -/
theorem setter_identical_value_noop_witness :
    rWitness.executing = none ∧ alookup rWitness.cells 0 = some 5
    ∧ StateReactor.setterImpl rWitness 0 5 = (rWitness, false) :=
  ⟨rfl, by decide, setter_identical_value_noop rWitness 0 5 rfl (by decide)⟩

/-- C6: a setter call made while any effect body is executing throws the
invalid-operation error synchronously at the call site and leaves the reactor
untouched: the cell value, the queue, the cleanup table and the log (hence
error-callback invocations and listener notifications) are all exactly as
before, and the thrown flag is returned to the caller rather than being
routed anywhere. -/
theorem setter_during_effect_rejected (r : Reactor) (c v e : Nat)
    (hex : r.executing = some e) :
    StateReactor.setterImpl r c v = (r, true) := by
  unfold StateReactor.setterImpl
  rw [hex]
  simp

/-- C6 witness: the theorem applied at rWitnessExec (effect 3 executing),
cell 0, value 9. -/
theorem setter_during_effect_rejected_witness :
    rWitnessExec.executing = some 3
    ∧ StateReactor.setterImpl rWitnessExec 0 9 = (rWitnessExec, true) :=
  ⟨rfl, setter_during_effect_rejected rWitnessExec 0 9 3 rfl⟩

/-- C1 counterexample: in rC1 the only execution of effect 0 read cell 0's
getter without untracked (the log shows the run and the tracked read, and the
ghost read map records cell 0 for effect 0) and effect 0 has not been
re-executed since (its run count is 1 and it still sits in the queue), yet
effect 0 is not associated with cell 0's setter: the value-changing setter
call already removed the association at write time.  This falsifies the
right-to-left direction of the claimed equivalence. -/
theorem association_iff_counterexample :
    rC1.rm = [] ∧ rC1.queue = [0] ∧ alookup rC1.runCounts 0 = some 1
    ∧ rC1.log = [Event.run 0, Event.readv 0 0]
    ∧ consumersOf rC1.readSinceStop 0 = [0]
    ∧ ¬ 0 ∈ consumersOf rC1.rm 0 := by decide

/-- C4 counterexample: effect 0 is queued but not yet run when stop() is
called; the reactor is restarted before the microtask queue drains; the drain
then runs effect 0 twice — once for the stale pre-stop task (which finds the
reactor running again) and once for the task queued by start().  So an effect
that was queued but not yet run before the stop does execute. -/
theorem queued_before_stop_executes_counterexample :
    rC4.log = [Event.run 0, Event.run 0]
    ∧ alookup rC4.runCounts 0 = some 2 := by decide

/-- C5 counterexample: in the rC5 trace, the pending cleanup of effect 0 runs
(cleanupRun 0 is logged) and its setter call on cell 1 succeeds — cell 1
changes from 0 to 5 and no error of any kind is raised (no errorCb event, and
a rejected setter would have left the cell unchanged).  So a setter call made
while a cleanup is executing is not rejected: the executing-effect guard is
unset during cleanup execution. -/
theorem setter_during_cleanup_not_rejected_counterexample :
    Event.cleanupRun 0 ∈ rC5.log
    ∧ StateReactor.cellVal rC5 1 = 5
    ∧ ¬ Event.errorCb ∈ rC5.log
    ∧ rC5.log = [Event.run 0, Event.readv 0 0, Event.cleanupRun 0, Event.run 0] := by
  decide

/-- C10: an effect whose body calls stop() during its execution still has its
returned cleanup stored in the cleanup table keyed by its identity, whatever
that cleanup's own behaviour cb/th: after the drain the reactor is stopped,
the table holds exactly the new cleanup, and no cleanup was ever invoked (the
stop sweep ran while the table was still empty).  Restarting and draining runs
that pending cleanup before the effect's next execution; restarting and
stopping has the sweep invoke it. -/
theorem cleanup_stored_despite_stop_in_body (cb th : Bool) :
    (rC10 cb th).started = false
    ∧ (rC10 cb th).cleanups = [(0, { sets := [], callStop := cb, throws := th })]
    ∧ cleanupEvents (rC10 cb th).log = []
    ∧ execEvents (runCmds (envC10 cb th) [.start, .drain 2] (rC10 cb th)).log
        = [Event.run 0, Event.cleanupRun 0, Event.run 0]
    ∧ cleanupEvents (runCmds (envC10 cb th) [.start, .stop] (rC10 cb th)).log
        = [Event.cleanupRun 0] := by
  cases cb <;> cases th <;> decide

/-- C8: errors from effect bodies and cleanup bodies are routed to the error
callback and never unwind into the scheduler.  Conjuncts: the error handler is
exactly one callback invocation with its possible throw discarded (the
handler's result is the callback run's state, the callback's throw bit is the
configured one, and the handler's output is independent of it); in the
concrete envC8 trace an effect throw and a cleanup throw each produce one
error-callback invocation while the remaining effect and the remaining
cleanup still run, and the bookkeeping ends consistent (stopped, empty
cleanup table, empty association index, no executing effect); and the whole
trace is unchanged when the error callback itself throws at every
invocation. -/
theorem callback_errors_contained :
    (∀ r : Reactor, StateReactor.handleError r = (StateReactor.errorCallbackRun r).1)
    ∧ (∀ r : Reactor, (StateReactor.errorCallbackRun r).2 = r.cbThrows)
    ∧ (∀ (r : Reactor) (b : Bool),
        StateReactor.handleError { r with cbThrows := b }
          = { StateReactor.handleError r with cbThrows := b })
    ∧ (runCmds envC8 cmdsC8 Reactor.init).log
        = [Event.run 0, Event.run 1, Event.errorCb, Event.run 2,
           Event.cleanupRun 0, Event.errorCb, Event.cleanupRun 2]
    ∧ (runCmds envC8 cmdsC8 Reactor.init).started = false
    ∧ (runCmds envC8 cmdsC8 Reactor.init).cleanups = []
    ∧ (runCmds envC8 cmdsC8 Reactor.init).rm = []
    ∧ (runCmds envC8 cmdsC8 Reactor.init).executing = none
    ∧ runCmds envC8 cmdsC8 { Reactor.init with cbThrows := true }
        = { runCmds envC8 cmdsC8 Reactor.init with cbThrows := true } := by
  refine ⟨fun r => rfl, fun r => rfl, fun r b => rfl, ?_, ?_, ?_, ?_, ?_, ?_⟩
  all_goals decide

theorem cleanupEvents_append (l1 l2 : List Event) :
    cleanupEvents (l1 ++ l2) = cleanupEvents l1 ++ cleanupEvents l2 :=
  List.filter_append l1 l2

theorem cleanupEvents_notify (n c : Nat) :
    cleanupEvents ((List.range n).map (fun i => Event.notify c i)) = [] := by
  induction n with
  | zero => rfl
  | succ k ih =>
      rw [List.range_succ, List.map_append, cleanupEvents_append, ih]
      rfl

theorem stopAux_of_not_started (n : Nat) (r : Reactor) (h : r.started = false) :
    StateReactor.stopAux n r = r := by
  cases n with
  | zero => rfl
  | succ k =>
      rw [StateReactor.stopAux, h]
      simp

theorem queueEffect_started (r : Reactor) (e : Nat) :
    (StateReactor.queueEffect r e).started = r.started := by
  unfold StateReactor.queueEffect
  by_cases h : r.started = true
  · rw [if_pos h]
  · rw [if_neg h]

theorem queueEffect_log (r : Reactor) (e : Nat) :
    (StateReactor.queueEffect r e).log = r.log := by
  unfold StateReactor.queueEffect
  by_cases h : r.started = true
  · rw [if_pos h]
  · rw [if_neg h]

theorem foldl_queueEffect_started (l : List Nat) (r : Reactor) :
    (List.foldl StateReactor.queueEffect r l).started = r.started := by
  induction l generalizing r with
  | nil => rfl
  | cons e rest ih =>
      rw [List.foldl_cons, ih, queueEffect_started]

theorem foldl_queueEffect_log (l : List Nat) (r : Reactor) :
    (List.foldl StateReactor.queueEffect r l).log = r.log := by
  induction l generalizing r with
  | nil => rfl
  | cons e rest ih =>
      rw [List.foldl_cons, ih, queueEffect_log]

theorem setterImpl_started (r : Reactor) (c v : Nat) :
    (StateReactor.setterImpl r c v).1.started = r.started := by
  unfold StateReactor.setterImpl
  by_cases hex : r.executing.isSome = true
  · rw [if_pos hex]
  · rw [if_neg hex]
    cases alookup r.cells c with
    | none => rfl
    | some cur =>
        dsimp only
        by_cases he : cur = v
        · rw [if_pos he]
        · rw [if_neg he]
          dsimp only
          cases (ResourceManager.removeAssociations r.rm c).2 with
          | none => rfl
          | some effs =>
              show (StateReactor.notifyListeners (List.foldl StateReactor.queueEffect _ effs) c).started = r.started
              rw [StateReactor.notifyListeners, foldl_queueEffect_started]

theorem setterImpl_cleanupEvents (r : Reactor) (c v : Nat) :
    cleanupEvents (StateReactor.setterImpl r c v).1.log = cleanupEvents r.log := by
  unfold StateReactor.setterImpl
  by_cases hex : r.executing.isSome = true
  · rw [if_pos hex]
  · rw [if_neg hex]
    cases alookup r.cells c with
    | none => rfl
    | some cur =>
        dsimp only
        by_cases he : cur = v
        · rw [if_pos he]
        · rw [if_neg he]
          dsimp only
          cases (ResourceManager.removeAssociations r.rm c).2 with
          | none =>
              show cleanupEvents (StateReactor.notifyListeners _ c).log = cleanupEvents r.log
              rw [StateReactor.notifyListeners]
              dsimp only
              rw [cleanupEvents_append, cleanupEvents_notify, List.append_nil]
          | some effs =>
              show cleanupEvents (StateReactor.notifyListeners (List.foldl StateReactor.queueEffect _ effs) c).log = cleanupEvents r.log
              rw [StateReactor.notifyListeners]
              dsimp only
              rw [foldl_queueEffect_log, cleanupEvents_append, cleanupEvents_notify,
                List.append_nil]

theorem handleError_started (r : Reactor) :
    (StateReactor.handleError r).started = r.started := rfl

theorem handleError_cleanupEvents (r : Reactor) :
    cleanupEvents (StateReactor.handleError r).log = cleanupEvents r.log := by
  show cleanupEvents (r.log ++ [Event.errorCb]) = cleanupEvents r.log
  rw [cleanupEvents_append]
  show cleanupEvents r.log ++ [] = cleanupEvents r.log
  rw [List.append_nil]

theorem runSets_started (l : List (Nat × Nat)) (r : Reactor) :
    (StateReactor.runSets r l).1.started = r.started := by
  induction l generalizing r with
  | nil => rfl
  | cons p rest ih =>
      rw [StateReactor.runSets]
      by_cases h2 : (StateReactor.setterImpl r p.1 p.2).2 = true
      · rw [if_pos h2]
        exact setterImpl_started r p.1 p.2
      · rw [if_neg h2, ih, setterImpl_started]

theorem runSets_cleanupEvents (l : List (Nat × Nat)) (r : Reactor) :
    cleanupEvents (StateReactor.runSets r l).1.log = cleanupEvents r.log := by
  induction l generalizing r with
  | nil => rfl
  | cons p rest ih =>
      rw [StateReactor.runSets]
      by_cases h2 : (StateReactor.setterImpl r p.1 p.2).2 = true
      · rw [if_pos h2]
        exact setterImpl_cleanupEvents r p.1 p.2
      · rw [if_neg h2, ih, setterImpl_cleanupEvents]

/-- Inside a stop() sweep (where the started flag is already cleared), each
cleanup invocation adds exactly its own cleanupRun event and leaves the flag
cleared; a reentrant stop() inside the cleanup does nothing. -/
theorem runCleanup_in_sweep (n : Nat) (r : Reactor) (e : Nat) (cl : CleanupSpec)
    (h : r.started = false) :
    (StateReactor.runCleanup (StateReactor.stopAux n) r e cl).started = false
    ∧ cleanupEvents (StateReactor.runCleanup (StateReactor.stopAux n) r e cl).log
        = cleanupEvents r.log ++ [Event.cleanupRun e] := by
  unfold StateReactor.runCleanup
  dsimp only
  have hlog : cleanupEvents ({ r with log := r.log ++ [Event.cleanupRun e] } : Reactor).log
      = cleanupEvents r.log ++ [Event.cleanupRun e] := by
    show cleanupEvents (r.log ++ [Event.cleanupRun e]) = cleanupEvents r.log ++ [Event.cleanupRun e]
    rw [cleanupEvents_append]
    rfl
  by_cases h2 : (StateReactor.runSets { r with log := r.log ++ [Event.cleanupRun e] } cl.sets).2 = true
  · rw [if_pos h2]
    constructor
    · rw [handleError_started, runSets_started]
      exact h
    · rw [handleError_cleanupEvents, runSets_cleanupEvents, hlog]
  · rw [if_neg h2]
    have hs : (StateReactor.runSets { r with log := r.log ++ [Event.cleanupRun e] } cl.sets).1.started = false := by
      rw [runSets_started]; exact h
    have hstop : (if cl.callStop then
        StateReactor.stopAux n (StateReactor.runSets { r with log := r.log ++ [Event.cleanupRun e] } cl.sets).1
        else (StateReactor.runSets { r with log := r.log ++ [Event.cleanupRun e] } cl.sets).1)
        = (StateReactor.runSets { r with log := r.log ++ [Event.cleanupRun e] } cl.sets).1 := by
      by_cases hc : cl.callStop = true
      · rw [if_pos hc, stopAux_of_not_started n _ hs]
      · rw [if_neg hc]
    rw [hstop]
    by_cases ht : cl.throws = true
    · rw [if_pos ht]
      constructor
      · rw [handleError_started]; exact hs
      · rw [handleError_cleanupEvents, runSets_cleanupEvents, hlog]
    · rw [if_neg ht]
      constructor
      · exact hs
      · rw [runSets_cleanupEvents, hlog]

/-- The whole stop() sweep: one cleanupRun event per table entry, in table
order, with the started flag staying cleared. -/
theorem sweep_foldl (n : Nat) (cls : List (Nat × CleanupSpec)) (acc : Reactor)
    (h : acc.started = false) :
    (List.foldl (fun a p => StateReactor.runCleanup (StateReactor.stopAux n) a p.1 p.2) acc cls).started = false
    ∧ cleanupEvents (List.foldl (fun a p => StateReactor.runCleanup (StateReactor.stopAux n) a p.1 p.2) acc cls).log
        = cleanupEvents acc.log ++ cls.map (fun p => Event.cleanupRun p.1) := by
  induction cls generalizing acc with
  | nil =>
      refine ⟨h, ?_⟩
      rw [List.map_nil, List.append_nil]
      rfl
  | cons p rest ih =>
      rw [List.foldl_cons]
      have h1 := runCleanup_in_sweep n acc p.1 p.2 h
      have h2 := ih (StateReactor.runCleanup (StateReactor.stopAux n) acc p.1 p.2) h1.1
      refine ⟨h2.1, ?_⟩
      rw [h2.2, h1.2, List.map_cons, List.append_assoc]
      rfl

/-- C4 (amended), lifecycle half: a running-to-stopped transition of stop()
clears the flag before the sweep, invokes every pending cleanup exactly once
(whatever the cleanups do, including reentrant stop() calls, which find the
flag already cleared and do nothing), and clears the cleanup table and the
association index. -/
theorem stop_spec (r : Reactor) (h : r.started = true) :
    (StateReactor.stop r).started = false
    ∧ (StateReactor.stop r).cleanups = []
    ∧ (StateReactor.stop r).rm = []
    ∧ cleanupEvents (StateReactor.stop r).log
        = cleanupEvents r.log ++ r.cleanups.map (fun p => Event.cleanupRun p.1) := by
  unfold StateReactor.stop StateReactor.stopAux
  rw [if_pos h]
  dsimp only
  have hs := sweep_foldl 1 r.cleanups { r with started := false } rfl
  exact ⟨hs.1, rfl, rfl, hs.2⟩

theorem executeEffect_not_started (env : Nat → Nat → EffectRun) (r : Reactor)
    (e : Nat) (h : r.started = false) :
    StateReactor.executeEffect env r e = r := by
  unfold StateReactor.executeEffect
  rw [if_neg (by rw [h]; exact Bool.false_ne_true)]

theorem drain_stopped (env : Nat → Nat → EffectRun) (fuel : Nat) (r : Reactor)
    (h : r.started = false) :
    StateReactor.drain env fuel r = { r with queue := r.queue.drop fuel } := by
  induction fuel generalizing r with
  | zero => rfl
  | succ k ih =>
      rw [StateReactor.drain]
      cases hq : r.queue with
      | nil =>
          dsimp only
          conv_rhs => rw [List.drop_nil, ← hq]
      | cons e rest =>
          dsimp only
          rw [executeEffect_not_started env { r with queue := rest } e h,
            ih { r with queue := rest } h]
          rfl

/-- C4 (amended): on a running-to-stopped transition, every pending cleanup
is invoked exactly once — a reentrant stop() from inside a cleanup does
nothing, and stop() on a stopped reactor is the identity — and draining the
microtask queue while the reactor is stopped executes no effect: it merely
discards pending tasks (only a restart before the drain lets a pre-stop task
execute, which is the counterexample).  -/
theorem stop_contract_amended :
    (∀ r : Reactor, r.started = true →
        (StateReactor.stop r).started = false
        ∧ (StateReactor.stop r).cleanups = []
        ∧ (StateReactor.stop r).rm = []
        ∧ cleanupEvents (StateReactor.stop r).log
            = cleanupEvents r.log ++ r.cleanups.map (fun p => Event.cleanupRun p.1))
    ∧ (∀ r : Reactor, r.started = false → StateReactor.stop r = r)
    ∧ (∀ (env : Nat → Nat → EffectRun) (fuel : Nat) (r : Reactor), r.started = false →
        StateReactor.drain env fuel r = { r with queue := r.queue.drop fuel }) :=
  ⟨stop_spec, fun r h => stopAux_of_not_started 2 r h, drain_stopped⟩

/-- C4 witness: the amended contract applied at rSweep (whose cleanups call
stop() reentrantly and throw), and the drain clause applied at a stopped
reactor with a nonempty queue. -/
theorem stop_contract_amended_witness :
    rSweep.started = true
    ∧ cleanupEvents (StateReactor.stop rSweep).log
        = cleanupEvents rSweep.log ++ rSweep.cleanups.map (fun p => Event.cleanupRun p.1)
    ∧ ({ Reactor.init with queue := [7, 8] } : Reactor).started = false
    ∧ StateReactor.drain envTrivial 5 { Reactor.init with queue := [7, 8] }
        = { ({ Reactor.init with queue := [7, 8] } : Reactor) with
              queue := List.drop 5 [7, 8] } :=
  ⟨rfl, (stop_contract_amended.1 rSweep rfl).2.2.2,
   rfl, stop_contract_amended.2.2 envTrivial 5 { Reactor.init with queue := [7, 8] } rfl⟩


/-- Any setter call keeps the write-window shape: once effect 0's
associations were cleared by the first value-changing write, later writes in
the same synchronous window (to any cell, changing or not) find no
association, so they queue nothing — the queue keeps exactly one pending task
for effect 0. -/
theorem setterImpl_writeInv (r : Reactor) (h : WriteInv r) (c v : Nat) :
    WriteInv (StateReactor.setterImpl r c v).1 := by
  obtain ⟨hst, hex, hrm, hq, hcl, x, y, hcells⟩ := h
  unfold StateReactor.setterImpl
  rw [hex]
  simp only [Option.isSome_none, Bool.false_eq_true, if_false]
  cases hlk : alookup r.cells c with
  | none => exact ⟨hst, hex, hrm, hq, hcl, x, y, hcells⟩
  | some cur =>
      dsimp only
      by_cases he : cur = v
      · rw [if_pos he]
        exact ⟨hst, hex, hrm, hq, hcl, x, y, hcells⟩
      · rw [if_neg he]
        dsimp only
        rw [hrm, show ResourceManager.removeAssociations ([] : List (Nat × List Nat)) c
            = ([], none) from rfl]
        dsimp only
        refine ⟨hst, rfl, rfl, hq, hcl, ?_⟩
        show ∃ a b, aset r.cells c v = [(0, a), (1, b)]
        rw [hcells] at hlk ⊢
        by_cases hc0 : c = 0
        · subst hc0
          exact ⟨v, y, by rw [show aset [(0, x), (1, y)] 0 v = [(0, v), (1, y)] from rfl]⟩
        · by_cases hc1 : c = 1
          · subst hc1
            refine ⟨x, v, ?_⟩
            rw [aset, if_neg (show ¬ (0 : Nat) = 1 by decide),
              aset, if_pos rfl]
          · exfalso
            rw [alookup, if_neg (show ¬ (0 : Nat) = c from fun q => hc0 q.symm),
              alookup, if_neg (show ¬ (1 : Nat) = c from fun q => hc1 q.symm)] at hlk
            exact Option.noConfusion hlk

/-- The write-window shape is preserved by any sequence of setter calls. -/
theorem writes_preserve_writeInv (ws : List (Nat × Nat)) (r : Reactor)
    (h : WriteInv r) :
    WriteInv (runCmds envTrack01 (ws.map (fun p => Cmd.set p.1 p.2)) r) := by
  induction ws generalizing r with
  | nil => exact h
  | cons p rest ih =>
      show WriteInv (runCmds envTrack01 (rest.map (fun p => Cmd.set p.1 p.2))
        (StateReactor.setterImpl r p.1 p.2).1)
      exact ih _ (setterImpl_writeInv r h p.1 p.2)

/-- The first value-changing write to cell 0 (which effect 0 is associated
with in S0) queues effect 0 once and clears all of its associations. -/
theorem first_write_writeInv (v0 : Nat) (h : v0 ≠ 0) :
    WriteInv (StateReactor.setterImpl S0 0 v0).1 := by
  cases v0 with
  | zero => exact absurd rfl h
  | succ k => exact ⟨rfl, rfl, rfl, rfl, rfl, k + 1, 0, rfl⟩

/-- Draining after a write window of the shape above runs effect 0 exactly
once, and that single execution observes the current (final) values of both
cells it reads. -/
theorem drain_after_writes (r : Reactor) (h : WriteInv r) :
    (StateReactor.drain envTrack01 2 r).log
      = r.log ++ [Event.run 0, Event.readv 0 (StateReactor.cellVal r 0),
                  Event.readv 1 (StateReactor.cellVal r 1)]
    ∧ (StateReactor.drain envTrack01 2 r).queue = [] := by
  obtain ⟨st, effs, cls, rmv, ex, q, cs, ls, rc, cb, lg, gh⟩ := r
  obtain ⟨hst, hex, hrm, hq, hcl, x, y, hcells⟩ := h
  dsimp only at hst hex hrm hq hcl hcells
  subst hst hex hrm hq hcl hcells
  refine ⟨?_, rfl⟩
  show ((lg ++ [Event.run 0]) ++ [Event.readv 0 x]) ++ [Event.readv 1 y]
      = lg ++ [Event.run 0, Event.readv 0 x, Event.readv 1 y]
  rw [List.append_assoc, List.append_assoc]
  rfl

/-- C3: effect 0 reads cells 0 and 1 (tracked) and has run once (state S0).
For any write window that starts with a value-changing write to cell 0
followed by arbitrary further setter calls (to any cells, any values,
including repeated writes to the cells the effect reads), the next drain
re-executes effect 0 exactly once — exactly one new run event — and that
execution observes the final written values of both cells it reads (the cell
values as they stand after the whole window), not intermediate ones; the
queue is empty afterwards. -/
theorem effect_reruns_once_per_window (v0 : Nat) (h : v0 ≠ 0) (ws : List (Nat × Nat)) :
    (StateReactor.drain envTrack01 2
        (runCmds envTrack01 (((0, v0) :: ws).map (fun p => Cmd.set p.1 p.2)) S0)).log
      = (runCmds envTrack01 (((0, v0) :: ws).map (fun p => Cmd.set p.1 p.2)) S0).log
        ++ [Event.run 0,
            Event.readv 0 (StateReactor.cellVal
              (runCmds envTrack01 (((0, v0) :: ws).map (fun p => Cmd.set p.1 p.2)) S0) 0),
            Event.readv 1 (StateReactor.cellVal
              (runCmds envTrack01 (((0, v0) :: ws).map (fun p => Cmd.set p.1 p.2)) S0) 1)]
    ∧ (StateReactor.drain envTrack01 2
        (runCmds envTrack01 (((0, v0) :: ws).map (fun p => Cmd.set p.1 p.2)) S0)).queue
      = [] := by
  have h1 : WriteInv (runCmds envTrack01 (((0, v0) :: ws).map (fun p => Cmd.set p.1 p.2)) S0) := by
    show WriteInv (runCmds envTrack01 (ws.map (fun p => Cmd.set p.1 p.2))
      (StateReactor.setterImpl S0 0 v0).1)
    exact writes_preserve_writeInv ws _ (first_write_writeInv v0 h)
  exact drain_after_writes _ h1

/-- C3 witness: the theorem applied at v0 = 5 and the window
[(1, 3), (0, 7), (0, 7), (2, 9)] (several writes to both read cells, a
repeated identical write, and a write to an unrelated cell). -/
theorem effect_reruns_once_per_window_witness :
    (5 : Nat) ≠ 0
    ∧ ((StateReactor.drain envTrack01 2
        (runCmds envTrack01 (((0, 5) :: [(1, 3), (0, 7), (0, 7), (2, 9)]).map
          (fun p => Cmd.set p.1 p.2)) S0)).log
      = (runCmds envTrack01 (((0, 5) :: [(1, 3), (0, 7), (0, 7), (2, 9)]).map
          (fun p => Cmd.set p.1 p.2)) S0).log
        ++ [Event.run 0,
            Event.readv 0 (StateReactor.cellVal
              (runCmds envTrack01 (((0, 5) :: [(1, 3), (0, 7), (0, 7), (2, 9)]).map
                (fun p => Cmd.set p.1 p.2)) S0) 0),
            Event.readv 1 (StateReactor.cellVal
              (runCmds envTrack01 (((0, 5) :: [(1, 3), (0, 7), (0, 7), (2, 9)]).map
                (fun p => Cmd.set p.1 p.2)) S0) 1)]
    ∧ (StateReactor.drain envTrack01 2
        (runCmds envTrack01 (((0, 5) :: [(1, 3), (0, 7), (0, 7), (2, 9)]).map
          (fun p => Cmd.set p.1 p.2)) S0)).queue
      = []) :=
  ⟨by decide, effect_reruns_once_per_window 5 (by decide) [(1, 3), (0, 7), (0, 7), (2, 9)]⟩

theorem alookup_aset_self {α : Type} (m : List (Nat × α)) (k : Nat) (v : α) :
    alookup (aset m k v) k = some v := by
  induction m with
  | nil => simp [aset, alookup]
  | cons p rest ih =>
      rw [aset]
      by_cases e : p.1 = k
      · rw [if_pos e, alookup, if_pos rfl]
      · rw [if_neg e, alookup, if_neg e]
        exact ih

theorem alookup_aset_ne {α : Type} (m : List (Nat × α)) (k k2 : Nat) (v : α)
    (h : k2 ≠ k) : alookup (aset m k v) k2 = alookup m k2 := by
  induction m with
  | nil =>
      show alookup [(k, v)] k2 = none
      rw [alookup, if_neg (show ¬ k = k2 from fun q => h q.symm)]
      rfl
  | cons p rest ih =>
      rw [aset]
      by_cases e : p.1 = k
      · rw [if_pos e, alookup, if_neg (show ¬ k = k2 from fun q => h q.symm),
          alookup, if_neg (show ¬ p.1 = k2 from by rw [e]; exact fun q => h q.symm)]
      · rw [if_neg e, alookup, alookup]
        by_cases e2 : p.1 = k2
        · rw [if_pos e2, if_pos e2]
        · rw [if_neg e2, if_neg e2]
          exact ih

theorem alookup_append_left {α : Type} {m : List (Nat × α)} (l : List (Nat × α))
    {k : Nat} {v : α} (h : alookup m k = some v) : alookup (m ++ l) k = some v := by
  induction m with
  | nil => exact absurd h (by rw [alookup]; exact Option.noConfusion)
  | cons p rest ih =>
      rw [alookup] at h
      rw [List.cons_append, alookup]
      by_cases e : p.1 = k
      · rw [if_pos e] at h
        rw [if_pos e]
        exact h
      · rw [if_neg e] at h
        rw [if_neg e]
        exact ih h

theorem alookup_append_right {α : Type} {m : List (Nat × α)} (l : List (Nat × α))
    {k : Nat} (h : alookup m k = none) : alookup (m ++ l) k = alookup l k := by
  induction m with
  | nil => rfl
  | cons p rest ih =>
      rw [alookup] at h
      rw [List.cons_append, alookup]
      by_cases e : p.1 = k
      · rw [if_pos e] at h
        exact Option.noConfusion h
      · rw [if_neg e] at h
        rw [if_neg e]
        exact ih h

theorem mem_setAdd {s : List Nat} {x e : Nat} :
    e ∈ setAdd s x ↔ e ∈ s ∨ e = x := by
  unfold setAdd
  by_cases h : x ∈ s
  · rw [if_pos h]
    constructor
    · exact Or.inl
    · intro hc
      rcases hc with hc | hc
      · exact hc
      · rw [hc]; exact h
  · rw [if_neg h]
    rw [List.mem_append, List.mem_singleton]

theorem mem_consumersOf_associate_elim {m : List (Nat × List Nat)}
    {res con c e : Nat}
    (h : e ∈ consumersOf (ResourceManager.associate m res con) c) :
    e ∈ consumersOf m c ∨ (c = res ∧ e = con) := by
  unfold ResourceManager.associate at h
  cases hres : alookup m res with
  | some cs =>
      rw [hres] at h
      by_cases hc : c = res
      · subst hc
        rw [consumersOf, alookup_aset_self, Option.getD_some] at h
        rcases mem_setAdd.mp h with h1 | h1
        · left
          rw [consumersOf, hres, Option.getD_some]
          exact h1
        · exact Or.inr ⟨rfl, h1⟩
      · left
        rw [consumersOf, alookup_aset_ne m res c _ hc] at h
        exact h
  | none =>
      rw [hres] at h
      by_cases hc : c = res
      · subst hc
        rw [consumersOf, alookup_append_right _ hres, alookup, if_pos rfl,
          Option.getD_some, List.mem_singleton] at h
        exact Or.inr ⟨rfl, h⟩
      · left
        rw [consumersOf] at h ⊢
        cases hmc : alookup m c with
        | some l => rw [alookup_append_left _ hmc] at h; exact h
        | none =>
            rw [alookup_append_right _ hmc, alookup,
              if_neg (fun q => hc q.symm), alookup] at h
            exact absurd h (List.not_mem_nil e)

theorem mem_consumersOf_associate_of_mem {m : List (Nat × List Nat)}
    {res con c e : Nat} (h : e ∈ consumersOf m c) :
    e ∈ consumersOf (ResourceManager.associate m res con) c := by
  unfold ResourceManager.associate
  cases hres : alookup m res with
  | some cs =>
      by_cases hc : c = res
      · subst hc
        rw [consumersOf, alookup_aset_self, Option.getD_some]
        rw [consumersOf, hres, Option.getD_some] at h
        exact mem_setAdd.mpr (Or.inl h)
      · rw [consumersOf, alookup_aset_ne m res c _ hc]
        exact h
  | none =>
      rw [consumersOf] at h ⊢
      cases hmc : alookup m c with
      | some l =>
          rw [hmc] at h
          rw [alookup_append_left _ hmc]
          exact h
      | none =>
          rw [hmc] at h
          exact absurd h (List.not_mem_nil e)

theorem self_mem_consumersOf_associate (m : List (Nat × List Nat)) (res con : Nat) :
    con ∈ consumersOf (ResourceManager.associate m res con) res := by
  unfold ResourceManager.associate
  cases hres : alookup m res with
  | some cs =>
      rw [consumersOf, alookup_aset_self, Option.getD_some]
      exact mem_setAdd.mpr (Or.inr rfl)
  | none =>
      rw [consumersOf, alookup_append_right _ hres, alookup, if_pos rfl,
        Option.getD_some]
      exact List.mem_singleton.mpr rfl

theorem mem_pruneConsumers_elim {m : List (Nat × List Nat)} {cs : List Nat}
    {p : Nat × List Nat} (h : p ∈ ResourceManager.pruneConsumers m cs) :
    ∃ q ∈ m, p = (q.1, q.2.filter (fun c => ¬ c ∈ cs)) := by
  induction m with
  | nil => exact absurd h (List.not_mem_nil p)
  | cons q rest ih =>
      rw [ResourceManager.pruneConsumers] at h
      by_cases hf : q.2.filter (fun c => ¬ c ∈ cs) = []
      · rw [if_pos hf] at h
        rcases ih h with ⟨q2, hq2, he⟩
        exact ⟨q2, List.mem_cons_of_mem q hq2, he⟩
      · rw [if_neg hf] at h
        rcases List.mem_cons.mp h with h1 | h1
        · exact ⟨q, List.mem_cons_self q rest, h1⟩
        · rcases ih h1 with ⟨q2, hq2, he⟩
          exact ⟨q2, List.mem_cons_of_mem q hq2, he⟩

/-- A consumer in the detached set of removeAssociations is afterwards
recorded for no resource at all: the prune happens for every entry at the
moment of the call. -/
theorem removeAssociations_clears_consumer (m : List (Nat × List Nat)) (res : Nat)
    {cs : List Nat} (hres : alookup m res = some cs) {e : Nat} (he : e ∈ cs)
    (c : Nat) : ¬ e ∈ consumersOf (ResourceManager.removeAssociations m res).1 c := by
  intro h
  unfold ResourceManager.removeAssociations at h
  rw [hres] at h
  rw [consumersOf] at h
  cases hlk : alookup (ResourceManager.pruneConsumers (aremove m res) cs) c with
  | none => rw [hlk] at h; exact absurd h (List.not_mem_nil e)
  | some l =>
      rw [hlk, Option.getD_some] at h
      rcases mem_pruneConsumers_elim (mem_of_alookup hlk) with ⟨q, _, heq⟩
      have : l = q.2.filter (fun c => ¬ c ∈ cs) := congrArg Prod.snd heq
      rw [this] at h
      have := List.mem_filter.mp h
      exact absurd he (by simpa using this.2)

theorem alookup_isSome_of_mem_keys {α : Type} {m : List (Nat × α)} {k : Nat}
    (h : k ∈ m.map Prod.fst) : (alookup m k).isSome = true := by
  induction m with
  | nil => exact absurd h (List.not_mem_nil k)
  | cons p rest ih =>
      rw [alookup]
      by_cases e : p.1 = k
      · rw [if_pos e]; rfl
      · rw [if_neg e]
        apply ih
        rcases List.mem_cons.mp h with h1 | h1
        · exact absurd h1.symm e
        · exact h1

theorem not_mem_keys_of_alookup_none {α : Type} {m : List (Nat × α)} {k : Nat}
    (h : alookup m k = none) : ¬ k ∈ m.map Prod.fst := by
  intro hm
  have := alookup_isSome_of_mem_keys hm
  rw [h] at this
  exact Bool.noConfusion this

theorem keys_aset_of_found {α : Type} {m : List (Nat × α)} {k : Nat} {v0 : α}
    (h : alookup m k = some v0) (v : α) :
    (aset m k v).map Prod.fst = m.map Prod.fst := by
  induction m with
  | nil => exact absurd h (by rw [alookup]; exact Option.noConfusion)
  | cons p rest ih =>
      rw [alookup] at h
      rw [aset]
      by_cases e : p.1 = k
      · rw [if_pos e, List.map_cons, List.map_cons, e]
      · rw [if_neg e] at h
        rw [if_neg e, List.map_cons, List.map_cons, ih h]

theorem keysNodup_associate {m : List (Nat × List Nat)} (h : KeysNodup m)
    (res con : Nat) : KeysNodup (ResourceManager.associate m res con) := by
  unfold ResourceManager.associate
  cases hres : alookup m res with
  | some cs =>
      unfold KeysNodup
      rw [keys_aset_of_found hres]
      exact h
  | none =>
      unfold KeysNodup
      rw [List.map_append]
      rw [List.nodup_append]
      refine ⟨h, List.nodup_singleton res, ?_⟩
      intro a ha hb
      rw [show ([(res, [con])] : List (Nat × List Nat)).map Prod.fst = [res] from rfl] at hb
      rw [List.mem_singleton] at hb
      subst hb
      exact not_mem_keys_of_alookup_none hres ha

theorem keys_pruneConsumers_sublist (m : List (Nat × List Nat)) (cs : List Nat) :
    ((ResourceManager.pruneConsumers m cs).map Prod.fst).Sublist (m.map Prod.fst) := by
  induction m with
  | nil => exact List.Sublist.refl _
  | cons p rest ih =>
      rw [ResourceManager.pruneConsumers]
      by_cases hf : p.2.filter (fun c => ¬ c ∈ cs) = []
      · rw [if_pos hf, List.map_cons]
        exact ih.cons p.1
      · rw [if_neg hf, List.map_cons, List.map_cons]
        exact ih.cons₂ p.1

theorem keysNodup_removeAssociations {m : List (Nat × List Nat)} (h : KeysNodup m)
    (res : Nat) : KeysNodup (ResourceManager.removeAssociations m res).1 := by
  unfold ResourceManager.removeAssociations
  cases hres : alookup m res with
  | some cs =>
      exact (keys_pruneConsumers_sublist (aremove m res) cs).nodup
        (keys_nodup_aremove res h)
  | none => exact h

theorem consumersOf_removeAssociations_sub {m : List (Nat × List Nat)}
    (hnd : KeysNodup m) (res c e : Nat)
    (h : e ∈ consumersOf (ResourceManager.removeAssociations m res).1 c) :
    e ∈ consumersOf m c := by
  unfold ResourceManager.removeAssociations at h
  cases hres : alookup m res with
  | none => rw [hres] at h; exact h
  | some cs =>
      rw [hres] at h
      rw [consumersOf, alookup_pruneConsumers (keys_nodup_aremove res hnd) c] at h
      by_cases hc : c = res
      · subst hc
        rw [alookup_aremove_self] at h
        exact absurd h (List.not_mem_nil e)
      · rw [alookup_aremove_ne m res c hc] at h
        rw [consumersOf]
        cases hmc : alookup m c with
        | none => rw [hmc] at h; exact absurd h (List.not_mem_nil e)
        | some l =>
            rw [hmc] at h
            dsimp only at h
            by_cases hf : l.filter (fun c => ¬ c ∈ cs) = []
            · rw [if_pos hf] at h
              exact absurd h (List.not_mem_nil e)
            · rw [if_neg hf] at h
              rw [Option.getD_some] at h ⊢
              exact (List.mem_filter.mp h).1

theorem reactorInv_of_eq {r r2 : Reactor} (h1 : r2.rm = r.rm)
    (h2 : r2.readSinceStop = r.readSinceStop) (h : ReactorInv r) : ReactorInv r2 := by
  refine ⟨?_, ?_⟩
  · rw [show KeysNodup r2.rm = KeysNodup r.rm from by rw [h1]]
    exact h.1
  · intro c e hm
    rw [h1] at hm
    rw [h2]
    exact h.2 c e hm

theorem queueEffect_rm (r : Reactor) (e : Nat) :
    (StateReactor.queueEffect r e).rm = r.rm := by
  unfold StateReactor.queueEffect
  by_cases h : r.started = true
  · rw [if_pos h]
  · rw [if_neg h]

theorem queueEffect_reads (r : Reactor) (e : Nat) :
    (StateReactor.queueEffect r e).readSinceStop = r.readSinceStop := by
  unfold StateReactor.queueEffect
  by_cases h : r.started = true
  · rw [if_pos h]
  · rw [if_neg h]

theorem foldl_queueEffect_rm (l : List Nat) (r : Reactor) :
    (List.foldl StateReactor.queueEffect r l).rm = r.rm := by
  induction l generalizing r with
  | nil => rfl
  | cons e rest ih => rw [List.foldl_cons, ih, queueEffect_rm]

theorem foldl_queueEffect_reads (l : List Nat) (r : Reactor) :
    (List.foldl StateReactor.queueEffect r l).readSinceStop = r.readSinceStop := by
  induction l generalizing r with
  | nil => rfl
  | cons e rest ih => rw [List.foldl_cons, ih, queueEffect_reads]

theorem notifyListeners_rm (r : Reactor) (c : Nat) :
    (StateReactor.notifyListeners r c).rm = r.rm := rfl

theorem notifyListeners_reads (r : Reactor) (c : Nat) :
    (StateReactor.notifyListeners r c).readSinceStop = r.readSinceStop := rfl

theorem handleError_inv (r : Reactor) (h : ReactorInv r) :
    ReactorInv (StateReactor.handleError r) :=
  reactorInv_of_eq rfl rfl h

theorem setterImpl_inv (r : Reactor) (h : ReactorInv r) (c v : Nat) :
    ReactorInv (StateReactor.setterImpl r c v).1 := by
  unfold StateReactor.setterImpl
  by_cases hex : r.executing.isSome = true
  · rw [if_pos hex]; exact h
  · rw [if_neg hex]
    cases alookup r.cells c with
    | none => exact h
    | some cur =>
        dsimp only
        by_cases he : cur = v
        · rw [if_pos he]; exact h
        · rw [if_neg he]
          dsimp only
          cases (ResourceManager.removeAssociations r.rm c).2 with
          | none =>
              refine ⟨?_, ?_⟩
              · rw [show (StateReactor.notifyListeners
                    { r with cells := aset r.cells c v,
                             rm := (ResourceManager.removeAssociations r.rm c).1 } c).rm
                    = (ResourceManager.removeAssociations r.rm c).1 from rfl]
                exact keysNodup_removeAssociations h.1 c
              · intro c2 e2 hm
                rw [notifyListeners_rm] at hm
                rw [notifyListeners_reads]
                exact h.2 c2 e2 (consumersOf_removeAssociations_sub h.1 c c2 e2 hm)
          | some effs =>
              refine ⟨?_, ?_⟩
              · rw [notifyListeners_rm, foldl_queueEffect_rm]
                exact keysNodup_removeAssociations h.1 c
              · intro c2 e2 hm
                rw [notifyListeners_rm, foldl_queueEffect_rm] at hm
                rw [notifyListeners_reads, foldl_queueEffect_reads]
                exact h.2 c2 e2 (consumersOf_removeAssociations_sub h.1 c c2 e2 hm)

theorem getterImpl_inv (r : Reactor) (h : ReactorInv r) (c : Nat) (unt : Bool) :
    ReactorInv (StateReactor.getterImpl r c unt).1 := by
  unfold StateReactor.getterImpl
  cases hex : r.executing with
  | none => exact h
  | some e =>
      dsimp only
      by_cases hu : unt = true
      · rw [if_pos hu]; exact h
      · rw [if_neg hu]
        refine ⟨keysNodup_associate h.1 c e, ?_⟩
        intro c2 e2 hm
        rcases mem_consumersOf_associate_elim hm with h1 | h1
        · exact mem_consumersOf_associate_of_mem (h.2 c2 e2 h1)
        · rcases h1 with ⟨hc, he⟩
          subst hc; subst he
          exact self_mem_consumersOf_associate r.readSinceStop e2 c2

theorem runSets_inv (l : List (Nat × Nat)) (r : Reactor) (h : ReactorInv r) :
    ReactorInv (StateReactor.runSets r l).1 := by
  induction l generalizing r with
  | nil => exact h
  | cons p rest ih =>
      rw [StateReactor.runSets]
      by_cases h2 : (StateReactor.setterImpl r p.1 p.2).2 = true
      · rw [if_pos h2]
        exact setterImpl_inv r h p.1 p.2
      · rw [if_neg h2]
        exact ih _ (setterImpl_inv r h p.1 p.2)

theorem stopAux_inv (n : Nat) (r : Reactor) (h : ReactorInv r) :
    ReactorInv (StateReactor.stopAux n r) := by
  cases n with
  | zero => exact h
  | succ k =>
      rw [StateReactor.stopAux]
      by_cases hs : r.started = true
      · rw [if_pos hs]
        dsimp only
        refine ⟨List.nodup_nil, ?_⟩
        intro c e hm
        exact absurd hm (List.not_mem_nil e)
      · rw [if_neg hs]
        exact h

theorem runCleanup_inv (stopFn : Reactor → Reactor)
    (hstop : ∀ r2 : Reactor, ReactorInv r2 → ReactorInv (stopFn r2))
    (r : Reactor) (e : Nat) (cl : CleanupSpec) (h : ReactorInv r) :
    ReactorInv (StateReactor.runCleanup stopFn r e cl) := by
  unfold StateReactor.runCleanup
  dsimp only
  have h1 : ReactorInv { r with log := r.log ++ [Event.cleanupRun e] } :=
    reactorInv_of_eq rfl rfl h
  have h2 := runSets_inv cl.sets _ h1
  by_cases hthrew : (StateReactor.runSets
      { r with log := r.log ++ [Event.cleanupRun e] } cl.sets).2 = true
  · rw [if_pos hthrew]
    exact handleError_inv _ h2
  · rw [if_neg hthrew]
    have h3 : ReactorInv (if cl.callStop then
        stopFn (StateReactor.runSets
          { r with log := r.log ++ [Event.cleanupRun e] } cl.sets).1
        else (StateReactor.runSets
          { r with log := r.log ++ [Event.cleanupRun e] } cl.sets).1) := by
      by_cases hc : cl.callStop = true
      · rw [if_pos hc]; exact hstop _ h2
      · rw [if_neg hc]; exact h2
    by_cases ht : cl.throws = true
    · rw [if_pos ht]; exact handleError_inv _ h3
    · rw [if_neg ht]; exact h3

theorem runReads_inv (l : List (Nat × Bool)) (r : Reactor) (h : ReactorInv r) :
    ReactorInv (StateReactor.runReads r l) := by
  induction l generalizing r with
  | nil => exact h
  | cons p rest ih =>
      rw [StateReactor.runReads]
      exact ih _ (reactorInv_of_eq rfl rfl (getterImpl_inv r h p.1 p.2))

theorem reactorInv_set_executing (x : Reactor) (o : Option Nat) (h : ReactorInv x) :
    ReactorInv { x with executing := o } :=
  reactorInv_of_eq rfl rfl h

theorem reactorInv_set_cleanups (x : Reactor) (cl : List (Nat × CleanupSpec))
    (h : ReactorInv x) : ReactorInv { x with cleanups := cl } :=
  reactorInv_of_eq rfl rfl h

theorem reactorInv_set_rc_log (x : Reactor) (rc : List (Nat × Nat)) (lg : List Event)
    (h : ReactorInv x) : ReactorInv { x with runCounts := rc, log := lg } :=
  reactorInv_of_eq rfl rfl h

theorem reactorInv_set_exec_rc_log (x : Reactor) (o : Option Nat)
    (rc : List (Nat × Nat)) (lg : List Event) (h : ReactorInv x) :
    ReactorInv { x with executing := o, runCounts := rc, log := lg } :=
  reactorInv_of_eq rfl rfl h

theorem executeEffect_inv (env : Nat → Nat → EffectRun) (r : Reactor) (e : Nat)
    (h : ReactorInv r) : ReactorInv (StateReactor.executeEffect env r e) := by
  unfold StateReactor.executeEffect
  by_cases hs : r.started = true
  · rw [if_pos hs]
    dsimp only
    apply reactorInv_set_executing
    split
    · apply handleError_inv
      split
      · apply stopAux_inv
        apply runReads_inv
        apply reactorInv_set_exec_rc_log
        split
        · apply runCleanup_inv StateReactor.stop (fun r2 h2 => stopAux_inv 2 r2 h2)
          exact reactorInv_set_cleanups r _ h
        · exact h
      · apply runReads_inv
        apply reactorInv_set_exec_rc_log
        split
        · apply runCleanup_inv StateReactor.stop (fun r2 h2 => stopAux_inv 2 r2 h2)
          exact reactorInv_set_cleanups r _ h
        · exact h
    · split
      · apply reactorInv_set_cleanups
        split
        · apply stopAux_inv
          apply runReads_inv
          apply reactorInv_set_exec_rc_log
          split
          · apply runCleanup_inv StateReactor.stop (fun r2 h2 => stopAux_inv 2 r2 h2)
            exact reactorInv_set_cleanups r _ h
          · exact h
        · apply runReads_inv
          apply reactorInv_set_exec_rc_log
          split
          · apply runCleanup_inv StateReactor.stop (fun r2 h2 => stopAux_inv 2 r2 h2)
            exact reactorInv_set_cleanups r _ h
          · exact h
      · split
        · apply stopAux_inv
          apply runReads_inv
          apply reactorInv_set_exec_rc_log
          split
          · apply runCleanup_inv StateReactor.stop (fun r2 h2 => stopAux_inv 2 r2 h2)
            exact reactorInv_set_cleanups r _ h
          · exact h
        · apply runReads_inv
          apply reactorInv_set_exec_rc_log
          split
          · apply runCleanup_inv StateReactor.stop (fun r2 h2 => stopAux_inv 2 r2 h2)
            exact reactorInv_set_cleanups r _ h
          · exact h
  · rw [if_neg hs]
    exact h

theorem drain_inv (env : Nat → Nat → EffectRun) (fuel : Nat) (r : Reactor)
    (h : ReactorInv r) : ReactorInv (StateReactor.drain env fuel r) := by
  induction fuel generalizing r with
  | zero => exact h
  | succ k ih =>
      rw [StateReactor.drain]
      cases hq : r.queue with
      | nil => exact h
      | cons e rest =>
          exact ih _ (executeEffect_inv env { r with queue := rest } e
            (reactorInv_of_eq rfl rfl h))

theorem applyCmd_inv (env : Nat → Nat → EffectRun) (r : Reactor) (cmd : Cmd)
    (h : ReactorInv r) : ReactorInv (applyCmd env r cmd) := by
  cases cmd with
  | start =>
      show ReactorInv (StateReactor.start r)
      unfold StateReactor.start
      by_cases hs : r.started = true
      · rw [if_pos hs]; exact h
      · rw [if_neg hs]
        exact reactorInv_of_eq (foldl_queueEffect_rm _ _)
          (foldl_queueEffect_reads _ _) (reactorInv_of_eq rfl rfl h)
  | stop => exact stopAux_inv 2 r h
  | useEffect e =>
      show ReactorInv (StateReactor.useEffect r e)
      unfold StateReactor.useEffect
      by_cases he : e ∈ r.effects
      · rw [if_pos he]; exact h
      · rw [if_neg he]
        exact reactorInv_of_eq (queueEffect_rm _ _) (queueEffect_reads _ _)
          (reactorInv_of_eq rfl rfl h)
  | useState c v =>
      show ReactorInv (StateReactor.useState r c v)
      unfold StateReactor.useState
      by_cases hc : (alookup r.cells c).isSome = true
      · rw [if_pos hc]; exact h
      · rw [if_neg hc]
        exact reactorInv_of_eq rfl rfl h
  | observe c => exact reactorInv_of_eq rfl rfl h
  | set c v => exact setterImpl_inv r h c v
  | drain fuel => exact drain_inv env fuel r h

theorem runCmds_inv (env : Nat → Nat → EffectRun) (cmds : List Cmd) (r : Reactor)
    (h : ReactorInv r) : ReactorInv (runCmds env cmds r) := by
  induction cmds generalizing r with
  | nil => exact h
  | cons cmd rest ih =>
      exact ih _ (applyCmd_inv env r cmd h)

theorem init_inv : ReactorInv Reactor.init :=
  ⟨List.nodup_nil, fun _ e hm => absurd hm (List.not_mem_nil e)⟩

/-- C1 (amended): (1) soundness: in every state reachable through any
top-level interaction sequence from a fresh reactor, an effect is associated
with a cell's setter only if one of its executions since the reactor's last
stop called that cell's getter without the untracked option (the ghost
readSinceStop map records exactly those tracked reads and is cleared on
stop); (2) the right-to-left direction must be weakened: when a
value-changing setter call detaches a cell, every returned effect is removed
from every cell's consumer set immediately at write time — before any
re-execution — so until the effect re-runs it is associated with no setter,
even though its most recent execution's tracked reads are unchanged; (3) the
consequence stands: in the conditional-read scenario the effect reads the
cell only on its first run, so after the first change re-runs it (one new
run event, no new read), a second change to the same cell no longer triggers
it (run count stays 2 and the queue stays empty). -/
theorem association_only_if_tracked_read :
    (∀ (env : Nat → Nat → EffectRun) (cmds : List Cmd) (c e : Nat),
        e ∈ consumersOf (runCmds env cmds Reactor.init).rm c →
        c ∈ consumersOf (runCmds env cmds Reactor.init).readSinceStop e)
    ∧ (∀ (m : List (Nat × List Nat)) (res : Nat) (cs : List Nat),
        alookup m res = some cs → ∀ e ∈ cs, ∀ c,
        ¬ e ∈ consumersOf (ResourceManager.removeAssociations m res).1 c)
    ∧ rCond.log = [Event.run 0, Event.readv 0 0, Event.run 0]
    ∧ alookup rCond.runCounts 0 = some 2
    ∧ rCond.queue = [] := by
  refine ⟨?_, ?_, by decide, by decide, by decide⟩
  · intro env cmds c e hm
    exact (runCmds_inv env cmds Reactor.init init_inv).2 c e hm
  · intro m res cs hres e he c
    exact removeAssociations_clears_consumer m res hres he c

/-- C1 witness: the soundness clause applied at the envTrack0 trace (where
the association and the recorded tracked read are both present), and the
immediate-prune clause applied at a concrete two-resource map. -/
theorem association_only_if_tracked_read_witness :
    0 ∈ consumersOf (runCmds envTrack0 [.useState 0 0, .useEffect 0, .start, .drain 2]
        Reactor.init).rm 0
    ∧ 0 ∈ consumersOf (runCmds envTrack0 [.useState 0 0, .useEffect 0, .start, .drain 2]
        Reactor.init).readSinceStop 0
    ∧ alookup [(1, [5]), (2, [5, 6])] 1 = some [5]
    ∧ (5 : Nat) ∈ [5]
    ∧ ¬ 5 ∈ consumersOf (ResourceManager.removeAssociations [(1, [5]), (2, [5, 6])] 1).1 2 :=
  ⟨by decide,
   association_only_if_tracked_read.1 envTrack0
     [.useState 0 0, .useEffect 0, .start, .drain 2] 0 0 (by decide),
   by decide, by decide,
   association_only_if_tracked_read.2.1 [(1, [5]), (2, [5, 6])] 1 [5]
     (by decide) 5 (by decide) 2⟩

/-- C5 (amended): setter calls made while an effect body is executing are
rejected fail-fast with the invalid-operation error, leaving the reactor
untouched (nothing queued, nothing notified, nothing routed to the error
callback); setter calls made while a cleanup is executing are not rejected —
the executing-effect slot is unset while cleanups run — as the rC5 trace
shows: the pending cleanup's setter call mutates cell 1 and no error of any
kind is raised.  Getter calls remain legal while an effect executes: they
return the current cell value. -/
theorem setter_guard_amended :
    (∀ (r : Reactor) (c v e : Nat), r.executing = some e →
        StateReactor.setterImpl r c v = (r, true))
    ∧ (∀ (r : Reactor) (c : Nat) (unt : Bool),
        (StateReactor.getterImpl r c unt).2 = StateReactor.cellVal r c)
    ∧ StateReactor.cellVal rC5 1 = 5
    ∧ Event.cleanupRun 0 ∈ rC5.log
    ∧ ¬ Event.errorCb ∈ rC5.log := by
  refine ⟨?_, ?_, by decide, by decide, by decide⟩
  · intro r c v e hex
    unfold StateReactor.setterImpl
    rw [hex]
    simp
  · intro r c unt
    rfl

/-- C5 witness: the effect-body clause of the amended guard applied at
rWitnessExec (effect 3 executing), cell 1, value 9. -/
theorem setter_guard_amended_witness :
    rWitnessExec.executing = some 3
    ∧ StateReactor.setterImpl rWitnessExec 1 9 = (rWitnessExec, true) :=
  ⟨rfl, setter_guard_amended.1 rWitnessExec 1 9 3 rfl⟩
